import Mathlib

/-
  Verification of the MiiBrowser structural-extraction engine
  (src/miibrowser/css_parser.py and src/miibrowser/js_parser.py).

  The repository delegates raw-text parsing to two external collaborators
  (the tinycss2 CSS grammar provider and the esprima ECMAScript grammar
  provider); the spec declares both out of scope and specified only by
  contract.  Accordingly, this development embeds the repository code
  (the walkers, scanners and formatters) over a Lean model of the
  providers' output node types.  Where a claim needs the provider's
  behaviour on a concrete text, that behaviour is supplied as a concrete
  node list whose doc comment records the text it is the parse of, per the
  CSS Syntax / ESTree contracts of spec section 6.
-/

/-! ## Generic substring scanning (used by detect_module_type and others).
    Python `sub in s` is modelled on `List Char`. -/

/-- Boolean substring test on character lists, modelling Python `sub in s`.
    Scans every suffix and tests whether `sub` is a prefix of it. -/
def hasSub (s sub : List Char) : Bool :=
  match s with
  | [] => decide (sub = [])
  | _ :: rest => List.isPrefixOf sub s || hasSub rest sub

/-- Substring relation as a proposition: `sub` occurs contiguously in `s`. -/
def HasSubP (s sub : List Char) : Prop :=
  ∃ a b : List Char, s = a ++ sub ++ b

/-! ## CSS component values (model of the tinycss2 token/component-value
    layer, spec section 6: the CSS grammar provider parses text into
    nested component values and can serialize any subtree back). -/

/-- Model of a tinycss2 component value: blocks are nested, everything
    else is a leaf carrying its source text.  `tok` covers the remaining
    leaf token kinds (numbers, dimensions, ...) by their serialization. -/
inductive CVal where
  | ident (s : String)
  | atKeyword (s : String)
  | strTok (s : String)
  | colon
  | semicolon
  | delim (c : Char)
  | whitespace (s : String)
  | comment (s : String)
  | curly (content : List CVal)
  | paren (content : List CVal)
  | square (content : List CVal)
  | func (name : String) (args : List CVal)
  | tok (s : String)

mutual
/-- Serialization of one component value back to CSS text (model of
    tinycss2.serialize on a single node). -/
def serializeCVal : CVal → String
  | .ident s => s
  | .atKeyword s => "@" ++ s
  | .strTok s => s
  | .colon => ":"
  | .semicolon => ";"
  | .delim c => String.singleton c
  | .whitespace s => s
  | .comment s => "/*" ++ s ++ "*/"
  | .curly l => "\x7b" ++ serializeCVals l ++ "\x7d"
  | .paren l => "(" ++ serializeCVals l ++ ")"
  | .square l => "[" ++ serializeCVals l ++ "]"
  | .func n args => n ++ "(" ++ serializeCVals args ++ ")"
  | .tok s => s

/-- Serialization of a component-value list (model of tinycss2.serialize). -/
def serializeCVals : List CVal → String
  | [] => ""
  | v :: rest => serializeCVal v ++ serializeCVals rest
end

/-! ## Declaration-list parsing (model of tinycss2.parse_declaration_list,
    needed because css_parser.py re-runs it on rule contents, and because
    validate_color decides on its raw output length). -/

/-- Model of a node in a parsed declaration list: a declaration, a nested
    at-rule, retained whitespace or comment, or a recovered parse error. -/
inductive DeclNode where
  | decl (name lowerName : String) (value : List CVal) (important : Bool)
  | atRuleNode (kw : String) (prelude : List CVal) (content : Option (List CVal))
  | ws (s : String)
  | comm (s : String)
  | err (msg : String)

/-- Lowercasing by character map (Python str.lower on ASCII idents). -/
def lowerStr (s : String) : String := String.mk (s.toList.map Char.toLower)

/-- True for the whitespace characters the CSS serializer emits; used to
    model Python str.strip() on serialized CSS fragments. -/
def isSpaceChar (c : Char) : Bool :=
  c == ' ' || c == '\n' || c == '\t' || c == '\r' || c == '\x0c'

/-- Python str.strip(): removes leading and trailing whitespace. -/
def pyStrip (s : String) : String :=
  String.mk (((s.toList.dropWhile isSpaceChar).reverse.dropWhile isSpaceChar).reverse)

/-- True for whitespace and comment component values (the tokens tinycss2
    treats as not significant). -/
def isInsignificant : CVal → Bool
  | .whitespace _ => true
  | .comment _ => true
  | _ => false

/-- True exactly for the bang literal token, Python's `token == "!"`. -/
def isBang : CVal → Bool
  | .delim c => c == '!'
  | _ => false

/-- True for an ident token whose lowercased value is `important`. -/
def isImportantIdent : CVal → Bool
  | .ident s => lowerStr s == "important"
  | _ => false

/-- Model of the `!important` state machine at the end of tinycss2's
    declaration parsing: returns the final state (0 value, 1 bang,
    2 important) and the index of the bang token. -/
def impFold : List CVal → Nat → Nat → Option Nat → Nat × Option Nat
  | [], _, st, bp => (st, bp)
  | t :: rest, i, st, bp =>
      if st == 0 && isBang t then impFold rest (i + 1) 1 (some i)
      else if st == 1 && isImportantIdent t then impFold rest (i + 1) 2 bp
      else if !(isInsignificant t) then impFold rest (i + 1) 0 bp
      else impFold rest (i + 1) st bp

/-- Builds the Declaration node once name and colon were consumed:
    detects a trailing `!important` and truncates the value before it. -/
def mkDeclaration (n : String) (value : List CVal) : DeclNode :=
  let p := impFold value 0 0 none
  if p.1 == 2 then .decl n (lowerStr n) (value.take (p.2.getD 0)) true
  else .decl n (lowerStr n) value false

/-- Model of tinycss2 parsing one declaration chunk: the first token must
    be an ident, then after insignificant tokens a colon, then the value. -/
def parseDecl (name : CVal) (toks : List CVal) : DeclNode :=
  match name with
  | .ident n =>
      match toks.dropWhile isInsignificant with
      | [] => .err "expected colon, got EOF"
      | .colon :: value => mkDeclaration n value
      | _ => .err "expected colon"
  | _ => .err "expected ident for declaration name"

/-- Parsing mode of the declaration-list consumer: between constructs,
    inside an at-rule prelude, or inside a declaration chunk (tokens
    accumulated in reverse). -/
inductive DLMode where
  | top
  | inAt (kw : String) (acc : List CVal)
  | inDecl (name : CVal) (acc : List CVal)

/-- Single pass of tinycss2's declaration-list consumption as a state
    machine over the token list: at top level whitespace and comments pass
    through, an at-keyword opens an at-rule (prelude to a semicolon or to
    its curly-block content), semicolons separate, any other token opens a
    declaration chunk running to the next top-level semicolon. -/
def parseDLGo : DLMode → List CVal → List DeclNode
  | .top, [] => []
  | .inAt kw acc, [] => [.atRuleNode kw acc.reverse none]
  | .inDecl name acc, [] => [parseDecl name acc.reverse]
  | .top, t :: rest =>
      match t with
      | .whitespace s => .ws s :: parseDLGo .top rest
      | .comment s => .comm s :: parseDLGo .top rest
      | .atKeyword kw => parseDLGo (.inAt kw []) rest
      | .semicolon => parseDLGo .top rest
      | other => parseDLGo (.inDecl other []) rest
  | .inAt kw acc, t :: rest =>
      match t with
      | .semicolon => .atRuleNode kw acc.reverse none :: parseDLGo .top rest
      | .curly c => .atRuleNode kw acc.reverse (some c) :: parseDLGo .top rest
      | other => parseDLGo (.inAt kw (other :: acc)) rest
  | .inDecl name acc, t :: rest =>
      match t with
      | .semicolon => parseDecl name acc.reverse :: parseDLGo .top rest
      | other => parseDLGo (.inDecl name (other :: acc)) rest

/-- Model of tinycss2.parse_declaration_list with comments and whitespace
    retained (the defaults used by CSSParser.validate_color). -/
def parseDeclList (l : List CVal) : List DeclNode := parseDLGo .top l

/-- True for Declaration nodes, Python `isinstance(d, tinycss2.ast.Declaration)`. -/
def isDeclNode : DeclNode → Bool
  | .decl _ _ _ _ => true
  | _ => false

/-- CSSParser.validate_color (css_parser.py lines 190-204), over the token
    stream of the text `"color: " + value`.  By the tokenizer contract that
    stream is `ident "color"`, a colon, then some token list `tail` (the
    fixed blank merges into the first whitespace token of `tail`); the
    function is quantified over every such `tail`.  The source returns
    `len(tokens) > 0` on the raw parse_declaration_list output, whose
    elements include whitespace, comments and recovered errors, not only
    declarations; the try/except never fires because the model is total. -/
def validate_color (tail : List CVal) : Bool :=
  decide (0 < (parseDeclList (CVal.ident "color" :: CVal.colon :: tail)).length)

/-! ## Top-level stylesheet rules (model of tinycss2.parse_stylesheet
    output with skip_comments=True: qualified rules, at-rules, retained
    whitespace tokens, and recovered errors). -/

/-- Model of one node of a parsed stylesheet. -/
inductive CSSRule where
  | qualified (prelude : List CVal) (content : List CVal)
  | atRule (kw : String) (prelude : List CVal) (content : Option (List CVal))
  | wsTok (s : String)
  | parseErr (msg : String)

/-- Python `hasattr(rule, "prelude")` on tinycss2 nodes: true for
    QualifiedRule and for AtRule (both classes define the attribute). -/
def hasPreludeAttr : CSSRule → Bool
  | .qualified _ _ => true
  | .atRule _ _ _ => true
  | _ => false

/-- Python `hasattr(rule, "content")` on tinycss2 nodes: true for
    QualifiedRule and for AtRule; an AtRule has the attribute even when
    its value is None (block-less at-rules). -/
def hasContentAttr : CSSRule → Bool
  | .qualified _ _ => true
  | .atRule _ _ _ => true
  | _ => false

/-- Python `hasattr(rule, "at_keyword")`: true only for AtRule. -/
def hasAtKeywordAttr : CSSRule → Bool
  | .atRule _ _ _ => true
  | _ => false

/-- True exactly for qualified rules (the claim's notion of a rule). -/
def isQualifiedRule : CSSRule → Bool
  | .qualified _ _ => true
  | _ => false

/-- The rule's prelude tokens; empty for nodes without the attribute
    (only read behind a hasPreludeAttr test, mirroring the source). -/
def preludeOf : CSSRule → List CVal
  | .qualified p _ => p
  | .atRule _ p _ => p
  | _ => []

/-- The rule's content; accessed only behind a hasContentAttr test. -/
def contentOf : CSSRule → Option (List CVal)
  | .qualified _ c => some c
  | .atRule _ _ c => c
  | _ => none

/-- Serialization of one stylesheet node (model of tinycss2.serialize on
    it); a ParseError node has no serializer in tinycss2 and is mapped to
    an error by the callers that serialize whole rule lists. -/
def serializeRule : CSSRule → String
  | .qualified p c => serializeCVals p ++ "\x7b" ++ serializeCVals c ++ "\x7d"
  | .atRule kw p c =>
      "@" ++ kw ++ serializeCVals p ++
        (match c with
         | none => ";"
         | some cc => "\x7b" ++ serializeCVals cc ++ "\x7d")
  | .wsTok s => s
  | .parseErr _ => ""

/-- CSSParser.extract_selectors (css_parser.py lines 98-116) over the
    parsed rule list: appends the serialized prelude of every rule that
    has a `prelude` attribute, in document order. -/
def extract_selectors (rules : List CSSRule) : List String :=
  rules.foldl
    (fun selectors rule =>
      if hasPreludeAttr rule then selectors ++ [serializeCVals (preludeOf rule)]
      else selectors)
    []

/-- CSSParser.minify_css (css_parser.py lines 237-248): re-serializes the
    parsed rule list; tinycss2.serialize raises on a ParseError node,
    modelled as the error case. -/
def minify_css (rules : List CSSRule) : Except String String :=
  match rules with
  | [] => .ok ""
  | .parseErr m :: _ => .error ("TypeError: cannot serialize ParseError " ++ m)
  | r :: rest =>
      match minify_css rest with
      | .ok s => .ok (serializeRule r ++ s)
      | .error e => .error e

/-- One output line of the prettifier per declaration of a rule body:
    `indent + name + ": " + stripped value + optional " !important" + ";"`
    (css_parser.py lines 269-274); non-declaration nodes produce nothing. -/
def prettyDeclLine (indent : String) : DeclNode → Option String
  | .decl n _ v imp =>
      some (indent ++ n ++ ": " ++ pyStrip (serializeCVals v) ++
        (if imp then " !important" else "") ++ ";")
  | _ => none

/-- CSSParser.prettify_css (css_parser.py lines 250-282): collects the
    emitted fragments per rule in order.  The branch order of the source
    is kept: a rule with both `prelude` and `content` attributes takes the
    first branch even when it is an at-rule; the at-rule branch is tested
    only afterwards.  Passing a None content to parse_declaration_list
    raises in Python, modelled as the error case. -/
def prettifyParts (indent : String) : List CSSRule → Except String (List String)
  | [] => .ok []
  | r :: rest =>
      if hasPreludeAttr r && hasContentAttr r then
        match contentOf r with
        | none => .error "TypeError: parse_declaration_list(None)"
        | some cont =>
            let selector := pyStrip (serializeCVals (preludeOf r))
            let declLines := (parseDeclList cont).filterMap (prettyDeclLine indent)
            match prettifyParts indent rest with
            | .ok tailParts =>
                .ok ((selector ++ " \x7b") :: declLines ++ ("\x7d\n" :: tailParts))
            | .error e => .error e
      else if hasAtKeywordAttr r then
        match prettifyParts indent rest with
        | .ok tailParts => .ok ((serializeRule r ++ "\n") :: tailParts)
        | .error e => .error e
      else prettifyParts indent rest

/-- CSSParser.prettify_css: the collected fragments joined by newlines. -/
def prettify_css (rules : List CSSRule) (indent : String) : Except String String :=
  (prettifyParts indent rules).map (fun parts => String.intercalate "\n" parts)

/-! ## Concrete provider outputs used by the CSS claims.  Each definition
    records the text it is the external CSS grammar provider's parse of
    (CSS Syntax grammar, spec section 6). -/

/-- Parse of the stylesheet text `@media screen\x7bb\x7bcolor:red\x7d\x7d`
    (an at-media rule whose block holds one nested qualified rule): one
    top-level at-rule, no top-level qualified rule. -/
def mediaParse : List CSSRule :=
  [CSSRule.atRule "media" [CVal.whitespace " ", CVal.ident "screen"]
    (some [CVal.ident "b",
      CVal.curly [CVal.ident "color", CVal.colon, CVal.ident "red"]])]

/-- The serialization of `mediaParse` (the minified text). -/
def mediaMinified : String := "@media screen\x7bb\x7bcolor:red\x7d\x7d"

/-- The string the prettifier produces from `mediaParse`. -/
def mediaPrettified : String := "screen \x7b\n\x7d\n"

/-- Parse of the stylesheet text `screen \x7b\n\x7d\n` (the prettifier's
    output on `mediaParse`): one qualified rule with selector `screen`
    and an empty body, then a whitespace token. -/
def mediaReparse : List CSSRule :=
  [CSSRule.qualified [CVal.ident "screen", CVal.whitespace " "]
      [CVal.whitespace "\n"],
   CSSRule.wsTok "\n"]

/-- Parse of the two-rule stylesheet `h1, h2 \x7bcolor:red\x7d p\x7b\x7d`
    used to witness the at-rule-free case of extract_selectors. -/
def twoRuleParse : List CSSRule :=
  [CSSRule.qualified
      [CVal.ident "h1", CVal.tok ",", CVal.whitespace " ", CVal.ident "h2",
       CVal.whitespace " "]
      [CVal.ident "color", CVal.colon, CVal.ident "red"],
   CSSRule.wsTok " ",
   CSSRule.qualified [CVal.ident "p"] []]

/-! ## JSParser.detect_module_type (js_parser.py lines 263-283): raw
    substring heuristics on the source text, modelled on `List Char`. -/

/-- JSParser.detect_module_type: the four substring flags and the
    es6 / commonjs / none priority exactly as in the source.  Note the
    es6 import test is two independent containment tests, with no
    ordering between the `import ` and ` from ` occurrences. -/
def detect_module_type (code : List Char) : String :=
  let has_require := hasSub code "require(".toList
  let has_module_exports :=
    hasSub code "module.exports".toList || hasSub code "exports.".toList
  let has_import := hasSub code "import ".toList && hasSub code " from ".toList
  let has_export := hasSub code "export ".toList
  if has_import || has_export then "es6"
  else if has_require || has_module_exports then "commonjs"
  else "none"

/-- Ordered-substring test written from the claim's words: some occurrence
    of `pre` is followed eventually by an occurrence of `post`. -/
def orderedSub (s pre post : List Char) : Bool :=
  (List.isPrefixOf pre s && hasSub (s.drop pre.length) post) ||
    (match s with
     | [] => false
     | _ :: rest => orderedSub rest pre post)

/-- Ordered-substring relation as a proposition: an occurrence of `pre`
    with an occurrence of `post` entirely after it. -/
def OrderedSubP (s pre post : List Char) : Prop :=
  ∃ a b : List Char, s = a ++ pre ++ b ∧ HasSubP b post

/-- The concrete source text ` from x import ` used against claim C5:
    it contains both `import ` and ` from `, but no `import ` occurrence
    is followed by ` from `. -/
def es6CexCode : List Char := " from x import ".toList

/-! ## JS token stream and the require scan of find_dependencies
    (js_parser.py lines 373-384). -/

/-- Model of one esprima token as surfaced through `token.toDict()`. -/
structure JSToken where
  type : String
  value : String
  deriving DecidableEq, Repr

/-- True for a single or double quote character (the characters Python's
    `strip("'\"")` removes). -/
def isQuoteChar (c : Char) : Bool := c == Char.ofNat 39 || c == Char.ofNat 34

/-- Python `value.strip("'\"")`: removes every leading and trailing quote
    character. -/
def stripQuotes (s : String) : String :=
  String.mk (((s.toList.dropWhile isQuoteChar).reverse.dropWhile isQuoteChar).reverse)

/-- The inner loop of the require scan over an explicit index list:
    at the first index holding a String token, strip quotes and emit the
    value when non-empty, then stop (the source's break). -/
def innerScan (tokens : List JSToken) : List Nat → List String
  | [] => []
  | j :: rest =>
      match tokens[j]? with
      | some t =>
          if t.type == "String" then
            (let v := stripQuotes t.value
             if v == "" then [] else [v])
          else innerScan tokens rest
      | none => innerScan tokens rest

/-- The require scan of JSParser.find_dependencies, translated with the
    source's index arithmetic: for every position i holding an Identifier
    token with value `require`, scan indices i+1 to min(i+5, len)-1. -/
def scanRequiresIdx (tokens : List JSToken) : List String :=
  (List.range tokens.length).flatMap fun i =>
    match tokens[i]? with
    | some t =>
        if t.type == "Identifier" && t.value == "require" then
          innerScan tokens (List.range' (i + 1) (min (i + 5) tokens.length - (i + 1)))
        else []
    | none => []

/-- Structural characterization of the inner lookahead: first String
    token within the window, quote-stripped, dropped when empty. -/
def requireLookahead : List JSToken → List String
  | [] => []
  | t :: rest =>
      if t.type == "String" then
        (let v := stripQuotes t.value
         if v == "" then [] else [v])
      else requireLookahead rest

/-- Structural characterization of the require scan: at every Identifier
    token with value `require`, look at the next four tokens. -/
def scanRequires : List JSToken → List String
  | [] => []
  | t :: rest =>
      (if t.type == "Identifier" && t.value == "require" then
        requireLookahead (rest.take 4)
      else []) ++ scanRequires rest

/-- The require scan as claim C7 words it: the unquoted value of the first
    String token in the window is appended unconditionally, with no
    non-emptiness guard. -/
def requireLookaheadClaim : List JSToken → List String
  | [] => []
  | t :: rest =>
      if t.type == "String" then [stripQuotes t.value]
      else requireLookaheadClaim rest

/-- The whole require scan under claim C7's reading. -/
def scanRequiresClaim : List JSToken → List String
  | [] => []
  | t :: rest =>
      (if t.type == "Identifier" && t.value == "require" then
        requireLookaheadClaim (rest.take 4)
      else []) ++ scanRequiresClaim rest

/-- Token stream of the source text `const c = require(\x27\x27);`
    (esprima tokenization, spec section 6 contract): the require call
    carries an empty string literal. -/
def emptyRequireTokens : List JSToken :=
  [⟨"Keyword", "const"⟩, ⟨"Identifier", "c"⟩, ⟨"Punctuator", "="⟩,
   ⟨"Identifier", "require"⟩, ⟨"Punctuator", "("⟩,
   ⟨"String", "\x27\x27"⟩, ⟨"Punctuator", ")"⟩, ⟨"Punctuator", ";"⟩]

/-! ## ESTree syntax-tree model.  The esprima provider surfaces trees as
    nested Python dicts/lists via `toDict()`; the model is a JSON-like
    value type, with dicts as association lists in key order. -/

/-- Model of a Python value inside an ESTree dict: None, bool, number,
    string, list, or dict. -/
inductive JVal where
  | nullV
  | boolV (b : Bool)
  | numV (n : Int)
  | strV (s : String)
  | arrV (items : List JVal)
  | objV (fields : List (String × JVal))

/-- Dict lookup, Python `d.get(k)` returning None-as-absent. -/
def getField : List (String × JVal) → String → Option JVal
  | [], _ => none
  | (k, v) :: rest, key => if k == key then some v else getField rest key

/-- Python truthiness of a stored value: None, False, 0, empty string,
    empty list and empty dict are falsy. -/
def truthy : JVal → Bool
  | .nullV => false
  | .boolV b => b
  | .numV n => n != 0
  | .strV s => s != ""
  | .arrV l => !l.isEmpty
  | .objV f => !f.isEmpty

/-- Truthiness of a lookup result (absent key is falsy, like Python
    `node.get(k)` feeding an `if`). -/
def truthyOpt : Option JVal → Bool
  | none => false
  | some v => truthy v

/-- Python `node.get("type", "")` read as a string; ESTree type tags are
    always strings, so non-string values (never produced) read as empty. -/
def typeStrOf (fields : List (String × JVal)) : String :=
  match getField fields "type" with
  | some (.strV s) => s
  | _ => ""

/-- Python `v.get(k)` after an `or {}` style default: reads field `k` of a
    dict value, None for a missing key; a non-dict receiver would raise in
    Python and never occurs in ESTree trees (totalized as None). -/
def getAttr (v : Option JVal) (k : String) : JVal :=
  match v with
  | some (.objV f) => (getField f k).getD .nullV
  | _ => .nullV

/-- The guarded name pattern of the source,
    `node.get(k, {}).get("name") if node.get(k) else None`. -/
def guardedName (fields : List (String × JVal)) (k : String) : JVal :=
  if truthyOpt (getField fields k) then getAttr (getField fields k) "name"
  else .nullV

/-- Parameter-name extraction (js_parser.py lines 420, 429, 438): keeps
    `p.get("name")` for every dict parameter with a truthy name; non-simple
    patterns are silently dropped. -/
def paramNames (fields : List (String × JVal)) : List JVal :=
  (match getField fields "params" with
   | some (.arrV l) => l
   | _ => []).filterMap fun (p : JVal) =>
    match p with
    | .objV pf =>
        if truthyOpt (getField pf "name") then some ((getField pf "name").getD .nullV)
        else none
    | _ => none

/-- The function branch of JSParser._traverse_ast (js_parser.py lines
    415-441): FunctionDeclaration and FunctionExpression entries carry a
    `generator` key; the ArrowFunctionExpression entry dict is built
    without one. -/
def funcEntries (fields : List (String × JVal)) : List (List (String × JVal)) :=
  let ty := typeStrOf fields
  if ty == "FunctionDeclaration" || ty == "FunctionExpression" then
    [[("type", JVal.strV ty),
      ("name", guardedName fields "id"),
      ("params", JVal.arrV (paramNames fields)),
      ("async", (getField fields "async").getD (.boolV false)),
      ("generator", (getField fields "generator").getD (.boolV false))]]
  else if ty == "ArrowFunctionExpression" then
    [[("type", JVal.strV "ArrowFunctionExpression"),
      ("name", JVal.nullV),
      ("params", JVal.arrV (paramNames fields)),
      ("async", (getField fields "async").getD (.boolV false))]]
  else []

/-- The variable branch of _traverse_ast (lines 444-452): one entry per
    dict declarator, inheriting the statement's kind. -/
def varEntries (fields : List (String × JVal)) : List (List (String × JVal)) :=
  if typeStrOf fields == "VariableDeclaration" then
    (match getField fields "declarations" with
     | some (.arrV l) => l
     | _ => []).filterMap fun (d : JVal) =>
      match d with
      | .objV df =>
          some [("kind", (getField fields "kind").getD .nullV),
                ("name", guardedName df "id")]
      | _ => none
  else []

/-- The class branch of _traverse_ast (lines 455-469). -/
def classEntries (fields : List (String × JVal)) : List (List (String × JVal)) :=
  let ty := typeStrOf fields
  if ty == "ClassDeclaration" || ty == "ClassExpression" then
    [[("type", JVal.strV ty),
      ("name", guardedName fields "id"),
      ("superClass", guardedName fields "superClass")]]
  else []

/-- One import specifier descriptor (lines 478-496). -/
def specEntry (sp : JVal) : Option JVal :=
  match sp with
  | .objV sf =>
      let sty := typeStrOf sf
      if sty == "ImportDefaultSpecifier" then
        some (.objV [("type", .strV "default"),
                     ("local", getAttr (getField sf "local") "name")])
      else if sty == "ImportSpecifier" then
        some (.objV [("type", .strV "named"),
                     ("imported", getAttr (getField sf "imported") "name"),
                     ("local", getAttr (getField sf "local") "name")])
      else if sty == "ImportNamespaceSpecifier" then
        some (.objV [("type", .strV "namespace"),
                     ("local", getAttr (getField sf "local") "name")])
      else none
  | _ => none

/-- The import branch of _traverse_ast (lines 472-497): source value plus
    specifier descriptors. -/
def importEntries (fields : List (String × JVal)) : List (List (String × JVal)) :=
  if typeStrOf fields == "ImportDeclaration" then
    [[("source", getAttr (getField fields "source") "value"),
      ("specifiers", JVal.arrV ((match getField fields "specifiers" with
        | some (.arrV l) => l
        | _ => []).filterMap specEntry))]]
  else []

/-- The export branch of _traverse_ast (lines 500-506). -/
def exportEntries (fields : List (String × JVal)) : List (List (String × JVal)) :=
  let ty := typeStrOf fields
  if ty == "ExportDefaultDeclaration" || ty == "ExportNamedDeclaration"
      || ty == "ExportAllDeclaration" then
    [[("type", JVal.strV ty),
      ("source",
        if truthyOpt (getField fields "source") then
          getAttr (getField fields "source") "value"
        else .nullV)]]
  else []

/-- Per-node dispatch of _traverse_ast on its target_type argument. -/
def nodeEntries (target : String) (fields : List (String × JVal)) :
    List (List (String × JVal)) :=
  if target == "function" then funcEntries fields
  else if target == "variable" then varEntries fields
  else if target == "class" then classEntries fields
  else if target == "import" then importEntries fields
  else if target == "export" then exportEntries fields
  else []

mutual
/-- JSParser._traverse_ast (js_parser.py lines 407-515): collect the
    entries of this node, then recurse into every dict-valued field and
    every dict element of every list-valued field, in field order. -/
def travNode (target : String) : JVal → List (List (String × JVal))
  | .objV fields => nodeEntries target fields ++ travFields target fields
  | _ => []

/-- Recursion of _traverse_ast over the fields of a dict node. -/
def travFields (target : String) : List (String × JVal) → List (List (String × JVal))
  | [] => []
  | (_, v) :: rest =>
      (match v with
       | .objV f2 => travNode target (.objV f2)
       | .arrV items => travItems target items
       | _ => []) ++ travFields target rest

/-- Recursion of _traverse_ast over the elements of a list-valued field:
    only dict elements are visited. -/
def travItems (target : String) : List JVal → List (List (String × JVal))
  | [] => []
  | x :: rest =>
      (match x with
       | .objV f2 => travNode target (.objV f2)
       | _ => []) ++ travItems target rest
end

mutual
/-- JSParser._collect_identifiers (lines 517-533): every Identifier node
    with a truthy name contributes its name value; Python accumulates
    these into a set, the model keeps them in visit order. -/
def idsNode : JVal → List JVal
  | .objV fields =>
      (if typeStrOf fields == "Identifier" && truthyOpt (getField fields "name") then
        [(getField fields "name").getD .nullV]
      else []) ++ idsFields fields
  | _ => []

/-- Identifier collection over the fields of a dict node. -/
def idsFields : List (String × JVal) → List JVal
  | [] => []
  | (_, v) :: rest =>
      (match v with
       | .objV f2 => idsNode (.objV f2)
       | .arrV items => idsItems items
       | _ => []) ++ idsFields rest

/-- Identifier collection over list elements. -/
def idsItems : List JVal → List JVal
  | [] => []
  | x :: rest =>
      (match x with
       | .objV f2 => idsNode (.objV f2)
       | _ => []) ++ idsItems rest
end

mutual
/-- The counting recursions _count_statements, _count_loops and
    _count_conditionals share this shape (lines 535-586): weigh the node
    by a predicate on its type string, then sum over dict descendants. -/
def countNode (p : String → Bool) : JVal → Nat
  | .objV fields => (if p (typeStrOf fields) then 1 else 0) + countFields p fields
  | _ => 0

/-- Count over the fields of a dict node. -/
def countFields (p : String → Bool) : List (String × JVal) → Nat
  | [] => 0
  | (_, v) :: rest =>
      (match v with
       | .objV f2 => countNode p (.objV f2)
       | .arrV items => countItems p items
       | _ => 0) + countFields p rest

/-- Count over list elements. -/
def countItems (p : String → Bool) : List JVal → Nat
  | [] => 0
  | x :: rest =>
      (match x with
       | .objV f2 => countNode p (.objV f2)
       | _ => 0) + countItems p rest
end

/-- Python `"Statement" in node.get("type", "")` of _count_statements. -/
def isStatementType (ty : String) : Bool := hasSub ty.toList "Statement".toList

/-- The loop statement types of _count_loops. -/
def isLoopType (ty : String) : Bool :=
  ty == "ForStatement" || ty == "ForInStatement" || ty == "ForOfStatement"
    || ty == "WhileStatement" || ty == "DoWhileStatement"

/-- The conditional node types of _count_conditionals. -/
def isCondType (ty : String) : Bool :=
  ty == "IfStatement" || ty == "ConditionalExpression" || ty == "SwitchStatement"

mutual
/-- JSParser._calculate_depth (lines 588-605): maximum over every dict
    descent of the running depth, starting from the current depth. -/
def depthNode : JVal → Nat → Nat
  | .objV fields, cur => depthFields fields cur
  | _, cur => cur

/-- Depth over the fields of a dict node. -/
def depthFields : List (String × JVal) → Nat → Nat
  | [], cur => cur
  | (_, v) :: rest, cur =>
      max
        (match v with
         | .objV f2 => depthNode (.objV f2) (cur + 1)
         | .arrV items => depthItems items cur
         | _ => cur)
        (depthFields rest cur)

/-- Depth over list elements (dict elements descend one level). -/
def depthItems : List JVal → Nat → Nat
  | [], cur => cur
  | x :: rest, cur =>
      max
        (match x with
         | .objV f2 => depthNode (.objV f2) (cur + 1)
         | _ => cur)
        (depthItems rest cur)
end

/-! ## JSParser object state and the esprima provider contract. -/

/-- The esprima options the source assembles (range/loc/tokens/comment are
    fixed in parse_options and only jsx and tolerant vary). -/
structure EsOptions where
  jsx : Bool
  tolerant : Bool
  deriving DecidableEq, Repr

/-- The ECMAScript grammar provider of spec section 6: Script and Module
    parses (surfaced as toDict trees) and tokenization.  Failures of the
    two parse entry points model raised esprima errors by their message. -/
structure EsProvider where
  parseScript : String → EsOptions → Except String JVal
  parseModule : String → EsOptions → Except String JVal
  tokenize : String → List JSToken

/-- The mutable JSParser object state: the cached last-parsed tree and the
    last source text handed to parse/parse_module. -/
structure PState where
  ast : Option JVal
  source_code : Option String

/-- Python truthiness of the optional code argument: `if code:` is false
    for both None and the empty string. -/
def codeTruthy : Option String → Bool
  | none => false
  | some s => s != ""

/-- JSParser.parse (js_parser.py lines 31-57): records the source, tries
    the Script grammar, falls back to the Module grammar, and raises
    `Failed to parse JavaScript: <script error>` only when both fail.
    The cached tree is written only by a successful attempt. -/
def parse (P : EsProvider) (st : PState) (code : String) (jsx tolerant : Bool) :
    PState × Except String JVal :=
  let st1 : PState := { st with source_code := some code }
  let opts : EsOptions := { jsx := jsx, tolerant := tolerant }
  match P.parseScript code opts with
  | .ok t => ({ st1 with ast := some t }, .ok t)
  | .error e =>
      match P.parseModule code opts with
      | .ok t => ({ st1 with ast := some t }, .ok t)
      | .error _ => (st1, .error ("Failed to parse JavaScript: " ++ e))

/-- JSParser.parse_module (lines 59-75): Module grammar only; tolerant
    stays at the parse_options default True. -/
def parse_module (P : EsProvider) (st : PState) (code : String) (jsx : Bool) :
    PState × Except String JVal :=
  let st1 : PState := { st with source_code := some code }
  match P.parseModule code { jsx := jsx, tolerant := true } with
  | .ok t => ({ st1 with ast := some t }, .ok t)
  | .error e => (st1, .error e)

/-- The zero-argument body shared by the extractors: empty result when no
    tree is cached, otherwise a fresh traversal of the cached tree. -/
def extractFromState (target : String) (st : PState) : List (List (String × JVal)) :=
  match st.ast with
  | none => []
  | some t => travNode target t

/-- JSParser.extract_functions (lines 90-108): parse when a truthy code
    argument is given, then walk the cached tree. -/
def extract_functions (P : EsProvider) (st : PState) (code : Option String) :
    PState × Except String (List (List (String × JVal))) :=
  if codeTruthy code then
    match parse P st (code.getD "") false true with
    | (st1, .ok _) => (st1, .ok (extractFromState "function" st1))
    | (st1, .error e) => (st1, .error e)
  else (st, .ok (extractFromState "function" st))

/-- JSParser.extract_variables (lines 110-128). -/
def extract_variables (P : EsProvider) (st : PState) (code : Option String) :
    PState × Except String (List (List (String × JVal))) :=
  if codeTruthy code then
    match parse P st (code.getD "") false true with
    | (st1, .ok _) => (st1, .ok (extractFromState "variable" st1))
    | (st1, .error e) => (st1, .error e)
  else (st, .ok (extractFromState "variable" st))

/-- JSParser.extract_classes (lines 130-148). -/
def extract_classes (P : EsProvider) (st : PState) (code : Option String) :
    PState × Except String (List (List (String × JVal))) :=
  if codeTruthy code then
    match parse P st (code.getD "") false true with
    | (st1, .ok _) => (st1, .ok (extractFromState "class" st1))
    | (st1, .error e) => (st1, .error e)
  else (st, .ok (extractFromState "class" st))

/-- JSParser.extract_imports (lines 150-171): a truthy code argument is
    first parsed with the Module grammar, falling back to parse (Script
    then Module) on failure; the walk then reads the cached tree. -/
def extract_imports (P : EsProvider) (st : PState) (code : Option String) :
    PState × Except String (List (List (String × JVal))) :=
  if codeTruthy code then
    match parse_module P st (code.getD "") false with
    | (st1, .ok _) => (st1, .ok (extractFromState "import" st1))
    | (st1, .error _) =>
        match parse P st1 (code.getD "") false true with
        | (st2, .ok _) => (st2, .ok (extractFromState "import" st2))
        | (st2, .error e) => (st2, .error e)
  else (st, .ok (extractFromState "import" st))

/-- JSParser.extract_exports (lines 173-194): same shape as
    extract_imports with the export target. -/
def extract_exports (P : EsProvider) (st : PState) (code : Option String) :
    PState × Except String (List (List (String × JVal))) :=
  if codeTruthy code then
    match parse_module P st (code.getD "") false with
    | (st1, .ok _) => (st1, .ok (extractFromState "export" st1))
    | (st1, .error _) =>
        match parse P st1 (code.getD "") false true with
        | (st2, .ok _) => (st2, .ok (extractFromState "export" st2))
        | (st2, .error e) => (st2, .error e)
  else (st, .ok (extractFromState "export" st))

/-- The zero-argument body of get_all_identifiers. -/
def idsFromState (st : PState) : List JVal :=
  match st.ast with
  | none => []
  | some t => idsNode t

/-- JSParser.get_all_identifiers (lines 196-214); Python returns the
    collected names as a set, the model keeps the visit order. -/
def get_all_identifiers (P : EsProvider) (st : PState) (code : Option String) :
    PState × Except String (List JVal) :=
  if codeTruthy code then
    match parse P st (code.getD "") false true with
    | (st1, .ok _) => (st1, .ok (idsFromState st1))
    | (st1, .error e) => (st1, .error e)
  else (st, .ok (idsFromState st))

/-- Number of newline characters in a string, Python `code.count("\n")`. -/
def newlineCount (s : String) : Nat := s.toList.count '\n'

/-- The complexity metrics dict of analyze_complexity (lines 234-243). -/
structure Metrics where
  functions : Nat
  vars : Nat
  classes : Nat
  lines : Nat
  statements : Nat
  loops : Nat
  conditionals : Nat
  depth : Nat
  deriving DecidableEq, Repr

/-- The metrics computed from a cached tree: the three extractor counts
    reuse the zero-argument extractors on the same state; `lines` reads
    the code ARGUMENT of this call (newline count + 1 when truthy, else
    0), not the retained source. -/
def metricsOf (st : PState) (code : Option String) : Option Metrics :=
  match st.ast with
  | none => none
  | some t =>
      some
        { functions := (travNode "function" t).length
          vars := (travNode "variable" t).length
          classes := (travNode "class" t).length
          lines := if codeTruthy code then newlineCount (code.getD "") + 1 else 0
          statements := countNode isStatementType t
          loops := countNode isLoopType t
          conditionals := countNode isCondType t
          depth := depthNode t 0 }

/-- JSParser.analyze_complexity (lines 216-245): parse when a truthy code
    argument is given; an empty dict (None here) when no tree is cached. -/
def analyze_complexity (P : EsProvider) (st : PState) (code : Option String) :
    PState × Except String (Option Metrics) :=
  if codeTruthy code then
    match parse P st (code.getD "") false true with
    | (st1, .ok _) => (st1, .ok (metricsOf st1 code))
    | (st1, .error e) => (st1, .error e)
  else (st, .ok (metricsOf st code))

/-- JSParser.find_dependencies (lines 352-386): imports from the
    AST-based import extractor (source field of every entry), requires
    from the index-loop token scan over the provider's token stream. -/
def find_dependencies (P : EsProvider) (st : PState) (code : String) :
    PState × Except String (List JVal × List String) :=
  match extract_imports P st (some code) with
  | (st1, .ok entries) =>
      let imports := entries.filterMap (fun e => getField e "source")
      let requires := scanRequiresIdx (P.tokenize code)
      (st1, .ok (imports, requires))
  | (st1, .error e) => (st1, .error e)

/-! ## Concrete esprima provider outputs used by the JS claims (ESTree
    contract of spec section 6; the range/loc bookkeeping fields are
    elided, they carry no type tags and feed no extractor). -/

/-- An Identifier node with the given name. -/
def identNode (n : String) : JVal :=
  .objV [("type", .strV "Identifier"), ("name", .strV n)]

/-- The ArrowFunctionExpression node of `const subtract = (a,b) => a-b;`
    as esprima reports it: id is None, generator and async are False. -/
def arrowNode : JVal :=
  .objV
    [("type", .strV "ArrowFunctionExpression"),
     ("id", .nullV),
     ("params", .arrV [identNode "a", identNode "b"]),
     ("body", .objV
       [("type", .strV "BinaryExpression"), ("operator", .strV "-"),
        ("left", identNode "a"), ("right", identNode "b")]),
     ("generator", .boolV false),
     ("expression", .boolV true),
     ("async", .boolV false)]

/-- Script parse of `const subtract = (a,b) => a-b;`. -/
def arrowProgram : JVal :=
  .objV
    [("type", .strV "Program"),
     ("body", .arrV
       [.objV
         [("type", .strV "VariableDeclaration"),
          ("declarations", .arrV
            [.objV
              [("type", .strV "VariableDeclarator"),
               ("id", identNode "subtract"),
               ("init", arrowNode)]]),
          ("kind", .strV "const")]]),
     ("sourceType", .strV "script")]

/-- Script parse of the empty-bodied program used as a cached tree. -/
def tinyProgram : JVal :=
  .objV
    [("type", .strV "Program"), ("body", .arrV []),
     ("sourceType", .strV "script")]

/-- A provider whose parses always succeed with the given tree and whose
    tokenizer always yields the given stream. -/
def constProvider (t : JVal) (toks : List JSToken) : EsProvider :=
  { parseScript := fun _ _ => .ok t
    parseModule := fun _ _ => .ok t
    tokenize := fun _ => toks }

/-- A provider whose parses always fail with the given messages. -/
def failProvider (e1 e2 : String) : EsProvider :=
  { parseScript := fun _ _ => .error e1
    parseModule := fun _ _ => .error e2
    tokenize := fun _ => [] }

/-- A parser state holding a cached tree for the two-line retained source
    `a\nb` (as left by a successful parse of that text). -/
def retainedState : PState :=
  { ast := some tinyProgram, source_code := some "a\nb" }

/-- The one FunctionInfo entry the walker produces for `arrowProgram`:
    kind Arrow, name None, params a and b, async False — and no
    `generator` key at all. -/
def arrowEntry : List (String × JVal) :=
  [("type", JVal.strV "ArrowFunctionExpression"), ("name", JVal.nullV),
   ("params", JVal.arrV [JVal.strV "a", JVal.strV "b"]),
   ("async", JVal.boolV false)]

/-- The es6 condition as claim C5 describes it: an `import ` occurrence
    followed eventually by ` from `, or an `export ` occurrence. -/
def ClaimEs6Cond (code : List Char) : Prop :=
  OrderedSubP code "import ".toList " from ".toList ∨ HasSubP code "export ".toList

/-- The es6 condition the code actually implements: `import ` and ` from `
    occur somewhere, in either order, or `export ` occurs. -/
def CodeEs6Cond (code : List Char) : Prop :=
  (HasSubP code "import ".toList ∧ HasSubP code " from ".toList) ∨
    HasSubP code "export ".toList

/-- The commonjs condition of detect_module_type. -/
def CjsCond (code : List Char) : Prop :=
  HasSubP code "require(".toList ∨ HasSubP code "module.exports".toList ∨
    HasSubP code "exports.".toList

/-! ## Theorems.  Helper lemmas come first, then one theorem per claim
    (with witness or counterexample theorems where the status needs
    them). -/

theorem isPrefixOf_iff_exists (l1 l2 : List Char) :
    List.isPrefixOf l1 l2 = true ↔ ∃ t, l1 ++ t = l2 := by
  induction l1 generalizing l2 with
  | nil => simp [List.isPrefixOf]
  | cons c cs ih =>
      cases l2 with
      | nil => simp [List.isPrefixOf]
      | cons d ds =>
          simp only [List.isPrefixOf, Bool.and_eq_true, beq_iff_eq, ih, List.cons_append,
            List.cons.injEq]
          constructor
          · rintro ⟨rfl, t, rfl⟩; exact ⟨t, rfl, rfl⟩
          · rintro ⟨t, rfl, rfl⟩; exact ⟨rfl, t, rfl⟩

theorem hasSub_iff (s sub : List Char) : hasSub s sub = true ↔ HasSubP s sub := by
  induction s with
  | nil =>
      simp only [hasSub, decide_eq_true_eq, HasSubP]
      constructor
      · rintro rfl; exact ⟨[], [], rfl⟩
      · rintro ⟨a, b, hab⟩
        rcases List.append_eq_nil.mp (List.append_eq_nil.mp hab.symm).1 with ⟨-, h2⟩
        exact h2
  | cons c rest ih =>
      simp only [hasSub, Bool.or_eq_true, isPrefixOf_iff_exists, ih, HasSubP]
      constructor
      · rintro (⟨t, ht⟩ | ⟨a, b, hab⟩)
        · exact ⟨[], t, by simp [ht]⟩
        · exact ⟨c :: a, b, by simp [hab]⟩
      · rintro ⟨a, b, hab⟩
        cases a with
        | nil => exact Or.inl ⟨b, by simpa using hab.symm⟩
        | cons a0 atl =>
            right
            refine ⟨atl, b, ?_⟩
            have := hab
            simp only [List.cons_append, List.cons.injEq] at this
            exact this.2

theorem drop_of_append_left (pre b : List Char) :
    (pre ++ b).drop pre.length = b := by
  simp

theorem orderedSub_iff (s pre post : List Char) :
    orderedSub s pre post = true ↔ OrderedSubP s pre post := by
  induction s with
  | nil =>
      constructor
      · intro h
        have h' : (List.isPrefixOf pre [] && hasSub (List.drop pre.length []) post) = true := by
          simpa [orderedSub] using h
        rw [Bool.and_eq_true] at h'
        rcases h' with ⟨hp, hh⟩
        obtain ⟨t, ht⟩ := (isPrefixOf_iff_exists pre []).mp hp
        rcases List.append_eq_nil.mp ht with ⟨rfl, rfl⟩
        exact ⟨[], [], rfl, (hasSub_iff _ _).mp (by simpa using hh)⟩
      · rintro ⟨a, b, hab, hp⟩
        have h1 : (a ++ pre) ++ b = [] := by simpa using hab.symm
        rcases List.append_eq_nil.mp h1 with ⟨h2, rfl⟩
        rcases List.append_eq_nil.mp h2 with ⟨rfl, rfl⟩
        have hh : hasSub ([] : List Char) post = true := (hasSub_iff _ _).mpr hp
        simp [orderedSub, hh, List.isPrefixOf]
  | cons c rest ih =>
      constructor
      · intro h
        have h' : ((List.isPrefixOf pre (c :: rest) &&
              hasSub ((c :: rest).drop pre.length) post)
            || orderedSub rest pre post) = true := by simpa [orderedSub] using h
        rw [Bool.or_eq_true] at h'
        rcases h' with h1 | h1
        · rw [Bool.and_eq_true] at h1
          rcases h1 with ⟨hp, hh⟩
          obtain ⟨t, ht⟩ := (isPrefixOf_iff_exists _ _).mp hp
          refine ⟨[], t, by simp [ht.symm], ?_⟩
          have hdrop : (c :: rest).drop pre.length = t := by
            rw [← ht]; exact drop_of_append_left pre t
          rw [hdrop] at hh
          exact (hasSub_iff _ _).mp hh
        · obtain ⟨a, b, hab, hp⟩ := ih.mp h1
          exact ⟨c :: a, b, by simp [hab], hp⟩
      · rintro ⟨a, b, hab, hp⟩
        cases a with
        | nil =>
            simp only [List.nil_append] at hab
            have hpre : List.isPrefixOf pre (c :: rest) = true :=
              (isPrefixOf_iff_exists _ _).mpr ⟨b, hab.symm⟩
            have hh : hasSub ((c :: rest).drop pre.length) post = true := by
              rw [hab, drop_of_append_left pre b]
              exact (hasSub_iff _ _).mpr hp
            simp [orderedSub, hpre, hh]
        | cons a0 atl =>
            have h2 : rest = atl ++ pre ++ b := by
              have := hab
              simp only [List.cons_append, List.cons.injEq] at this
              exact this.2
            have hrec : orderedSub rest pre post = true := ih.mpr ⟨atl, b, h2, hp⟩
            simp [orderedSub, hrec]

/-- C5 amended: detect_module_type classifies by raw substring presence,
    with the es6 import test being two independent containment tests
    (`import ` somewhere and ` from ` somewhere, in either order — not
    an import occurrence followed by ` from `), then the commonjs
    markers, then none. -/
theorem C5_detect_module_type_amended (code : List Char) :
    (detect_module_type code = "es6" ↔ CodeEs6Cond code) ∧
    (detect_module_type code = "commonjs" ↔ ¬ CodeEs6Cond code ∧ CjsCond code) ∧
    (detect_module_type code = "none" ↔ ¬ CodeEs6Cond code ∧ ¬ CjsCond code) := by
  have himp := hasSub_iff code "import ".toList
  have hfrom := hasSub_iff code " from ".toList
  have hexp := hasSub_iff code "export ".toList
  have hreq := hasSub_iff code "require(".toList
  have hmod := hasSub_iff code "module.exports".toList
  have hdot := hasSub_iff code "exports.".toList
  unfold detect_module_type CodeEs6Cond CjsCond
  rw [← himp, ← hfrom, ← hexp, ← hreq, ← hmod, ← hdot]
  cases h1 : hasSub code "import ".toList <;>
    cases h2 : hasSub code " from ".toList <;>
      cases h3 : hasSub code "export ".toList <;>
        cases h4 : hasSub code "require(".toList <;>
          cases h5 : hasSub code "module.exports".toList <;>
            cases h6 : hasSub code "exports.".toList <;>
              simp

/-- C5 counterexample: on the source text ` from x import ` the code
    returns es6 (both substrings occur), while the claim's description —
    an import token that is followed eventually by ` from `, or an
    `export ` occurrence, else the commonjs markers, else none — yields
    the answer none. -/
theorem C5_counterexample :
    detect_module_type es6CexCode = "es6" ∧
    ¬ ClaimEs6Cond es6CexCode ∧
    ¬ CjsCond es6CexCode := by
  refine ⟨rfl, ?_, ?_⟩
  · rintro (h | h)
    · rw [← orderedSub_iff] at h
      exact absurd h (by decide)
    · rw [← hasSub_iff] at h
      exact absurd h (by decide)
  · rintro (h | h | h) <;> (rw [← hasSub_iff] at h; exact absurd h (by decide))

theorem extract_selectors_eq_filter_map (rules : List CSSRule) :
    extract_selectors rules
      = (rules.filter hasPreludeAttr).map (fun r => serializeCVals (preludeOf r)) := by
  have general : ∀ (acc : List String),
      rules.foldl
        (fun selectors rule =>
          if hasPreludeAttr rule then selectors ++ [serializeCVals (preludeOf rule)]
          else selectors) acc
        = acc ++ (rules.filter hasPreludeAttr).map (fun r => serializeCVals (preludeOf r)) := by
    induction rules with
    | nil => intro acc; simp
    | cons r rest ih =>
        intro acc
        cases h : hasPreludeAttr r <;> simp [List.foldl_cons, h, ih, List.filter_cons]
  simpa [extract_selectors] using general []

/-- C1 amended: extract_selectors returns one string per top-level rule
    possessing a prelude attribute — qualified rules AND at-rules — in
    document order, each the entire serialized prelude; when the top level
    has no at-rule this is exactly one string per qualified rule, the i-th
    being the i-th qualified rule's serialized prelude. -/
theorem C1_extract_selectors_amended (rules : List CSSRule) :
    extract_selectors rules
        = (rules.filter hasPreludeAttr).map (fun r => serializeCVals (preludeOf r)) ∧
    ((∀ r ∈ rules, hasAtKeywordAttr r = false) →
      extract_selectors rules
        = (rules.filter isQualifiedRule).map (fun r => serializeCVals (preludeOf r))) := by
  refine ⟨extract_selectors_eq_filter_map rules, ?_⟩
  intro hno
  rw [extract_selectors_eq_filter_map rules]
  have hfil : rules.filter hasPreludeAttr = rules.filter isQualifiedRule := by
    apply List.filter_congr
    intro r hr
    have := hno r hr
    cases r <;> simp_all [hasPreludeAttr, isQualifiedRule, hasAtKeywordAttr]
  rw [hfil]

/-- C1 witness: the at-rule-free two-rule stylesheet, where the amended
    theorem's hypothesis holds and the selector list is exactly the
    qualified preludes in order. -/
theorem C1_witness :
    (∀ r ∈ twoRuleParse, hasAtKeywordAttr r = false) ∧
    extract_selectors twoRuleParse
      = (twoRuleParse.filter isQualifiedRule).map (fun r => serializeCVals (preludeOf r)) :=
  ⟨by decide, (C1_extract_selectors_amended twoRuleParse).2 (by decide)⟩

/-- C1 counterexample: the stylesheet `@media screen\x7bb\x7bcolor:red\x7d\x7d`
    has zero top-level qualified rules, yet extract_selectors returns one
    string (the at-rule's serialized prelude ` screen`), so the claim's
    "exactly k strings, the i-th qualified rule's prelude" equality fails. -/
theorem C1_counterexample :
    extract_selectors mediaParse
      ≠ (mediaParse.filter isQualifiedRule).map (fun r => serializeCVals (preludeOf r)) := by
  decide

/-- C2: evaluated at the stylesheet `@media screen\x7bb\x7bcolor:red\x7d\x7d`,
    minify re-serializes the parse to the same text, but prettify routes
    the at-rule through the qualified-rule branch (a tinycss2 AtRule has
    both prelude and content attributes, so the dedicated at-rule branch
    is unreachable): the output drops `@media` and the whole nested rule,
    and its reparse holds a qualified rule `screen` instead of an at-rule,
    so the round trip does not preserve the parsed stylesheet. -/
theorem C2_prettify_at_rule_loss :
    minify_css mediaParse = .ok mediaMinified ∧
    prettify_css mediaParse "  " = .ok mediaPrettified ∧
    extract_selectors mediaReparse ≠ extract_selectors mediaParse ∧
    mediaParse.countP (fun r => hasAtKeywordAttr r) = 1 ∧
    mediaReparse.countP (fun r => hasAtKeywordAttr r) = 0 ∧
    hasSub mediaPrettified.toList "@media".toList = false ∧
    hasSub mediaPrettified.toList "color".toList = false ∧
    hasSub mediaMinified.toList "@media".toList = true ∧
    hasSub mediaMinified.toList "color".toList = true :=
  ⟨rfl, rfl, by decide, rfl, rfl, by decide, by decide, by decide, by decide⟩

theorem mkDeclaration_isDecl (n : String) (v : List CVal) :
    isDeclNode (mkDeclaration n v) = true := by
  rw [mkDeclaration]
  split <;> rfl

theorem parseDLGo_inDecl_head (n : String) :
    ∀ (tail acc : List CVal),
      ∃ d rest2,
        parseDLGo (.inDecl (.ident n) (acc ++ [CVal.colon])) tail = d :: rest2 ∧
          isDeclNode d = true := by
  intro tail
  induction tail with
  | nil =>
      intro acc
      refine ⟨parseDecl (.ident n) (acc ++ [CVal.colon]).reverse, [], rfl, ?_⟩
      rw [parseDecl]
      have hrev : (acc ++ [CVal.colon]).reverse = CVal.colon :: acc.reverse := by
        simp
      rw [hrev]
      simp only [List.dropWhile_cons]
      simp [isInsignificant, mkDeclaration_isDecl]
  | cons t rest ih =>
      intro acc
      cases t with
      | semicolon =>
          exact ⟨parseDecl (.ident n) (acc ++ [CVal.colon]).reverse, parseDLGo .top rest,
            rfl, by
              rw [parseDecl]
              have hrev : (acc ++ [CVal.colon]).reverse = CVal.colon :: acc.reverse := by
                simp
              rw [hrev]
              simp only [List.dropWhile_cons]
              simp [isInsignificant, mkDeclaration_isDecl]⟩
      | ident s =>
          have := ih (CVal.ident s :: acc)
          simpa using this
      | atKeyword s => simpa using ih (CVal.atKeyword s :: acc)
      | strTok s => simpa using ih (CVal.strTok s :: acc)
      | colon => simpa using ih (CVal.colon :: acc)
      | delim c => simpa using ih (CVal.delim c :: acc)
      | whitespace s => simpa using ih (CVal.whitespace s :: acc)
      | comment s => simpa using ih (CVal.comment s :: acc)
      | curly l => simpa using ih (CVal.curly l :: acc)
      | paren l => simpa using ih (CVal.paren l :: acc)
      | square l => simpa using ih (CVal.square l :: acc)
      | func f a => simpa using ih (CVal.func f a :: acc)
      | tok s => simpa using ih (CVal.tok s :: acc)

/-- C3: validate_color returns True exactly when the declaration-list
    parse of `color: <value>` holds at least one Declaration.  The token
    stream of that text is `ident color`, a colon, then the value's
    tokens; for every such stream the first parsed node is a Declaration,
    so both sides of the equivalence hold: the source's raw length test
    (whose list also counts whitespace, comments and recovered errors)
    agrees with the claim's declaration count.  The function is total, so
    the source's bare except never fires. -/
theorem C3_validate_color_iff (tail : List CVal) :
    validate_color tail = true ↔
      0 < (parseDeclList (CVal.ident "color" :: CVal.colon :: tail)).countP
            (fun d => isDeclNode d) := by
  obtain ⟨d, rest2, heq, hd⟩ := parseDLGo_inDecl_head "color" tail []
  have hrepr : parseDeclList (CVal.ident "color" :: CVal.colon :: tail)
      = parseDLGo (.inDecl (.ident "color") ([] ++ [CVal.colon])) tail := rfl
  constructor
  · intro _
    rw [hrepr, heq]
    simp [List.countP_cons, hd]
  · intro _
    rw [validate_color, hrepr, heq]
    simp

/-- C4: parse tries the Script grammar and falls back to the Module
    grammar; it returns an error exactly when both attempts fail, the
    raised message embeds the Script attempt's grammar error, and on a
    Module success the returned tree and cached tree are exactly the
    Module attempt's output, untouched by the failed Script attempt. -/
theorem C4_parse_spec (P : EsProvider) (st : PState) (code : String) (jsx tol : Bool) :
    ((∃ e, (parse P st code jsx tol).2 = .error e) ↔
      ((∃ e, P.parseScript code ⟨jsx, tol⟩ = .error e) ∧
       (∃ e, P.parseModule code ⟨jsx, tol⟩ = .error e))) ∧
    (∀ e1 e2, P.parseScript code ⟨jsx, tol⟩ = .error e1 →
        P.parseModule code ⟨jsx, tol⟩ = .error e2 →
        (parse P st code jsx tol).2 = .error ("Failed to parse JavaScript: " ++ e1) ∧
        HasSubP ("Failed to parse JavaScript: " ++ e1).toList e1.toList) ∧
    (∀ e1 m, P.parseScript code ⟨jsx, tol⟩ = .error e1 →
        P.parseModule code ⟨jsx, tol⟩ = .ok m →
        parse P st code jsx tol = ({ ast := some m, source_code := some code }, .ok m)) := by
  refine ⟨?_, ?_, ?_⟩
  · cases hS : P.parseScript code ⟨jsx, tol⟩ with
    | ok t => simp [parse, hS]
    | error e1 =>
        cases hM : P.parseModule code ⟨jsx, tol⟩ with
        | ok t => simp [parse, hS, hM]
        | error e2 => simp [parse, hS, hM]
  · intro e1 e2 hS hM
    refine ⟨by simp [parse, hS, hM], ?_⟩
    refine ⟨("Failed to parse JavaScript: ").toList, [], ?_⟩
    show _ = _
    simp [String.toList]
  · intro e1 m hS hM
    simp [parse, hS, hM]

/-- C4 witness: a provider failing both grammars produces exactly the
    message built from the Script attempt's error. -/
theorem C4_witness :
    (parse (failProvider "bad token" "bad module") { ast := none, source_code := none }
        "x =" false true).2
      = .error ("Failed to parse JavaScript: " ++ "bad token") :=
  ((C4_parse_spec (failProvider "bad token" "bad module")
      { ast := none, source_code := none } "x =" false true).2.1
    "bad token" "bad module" rfl rfl).1

/-- C10: when both grammar attempts fail, parse raises but leaves the
    cached tree exactly as it was, so the zero-argument extractor family
    returns the same results as before the failed parse. -/
theorem C10_failed_parse_preserves_cache (P : EsProvider) (st : PState) (code : String)
    (jsx tol : Bool) (e1 e2 : String)
    (h1 : P.parseScript code ⟨jsx, tol⟩ = .error e1)
    (h2 : P.parseModule code ⟨jsx, tol⟩ = .error e2) :
    (parse P st code jsx tol).1.ast = st.ast ∧
    (extract_functions P (parse P st code jsx tol).1 none).2
      = (extract_functions P st none).2 ∧
    (extract_variables P (parse P st code jsx tol).1 none).2
      = (extract_variables P st none).2 ∧
    (extract_classes P (parse P st code jsx tol).1 none).2
      = (extract_classes P st none).2 ∧
    (extract_imports P (parse P st code jsx tol).1 none).2
      = (extract_imports P st none).2 ∧
    (extract_exports P (parse P st code jsx tol).1 none).2
      = (extract_exports P st none).2 ∧
    (get_all_identifiers P (parse P st code jsx tol).1 none).2
      = (get_all_identifiers P st none).2 ∧
    (analyze_complexity P (parse P st code jsx tol).1 none).2
      = (analyze_complexity P st none).2 := by
  have hp : parse P st code jsx tol
      = ({ st with source_code := some code },
         .error ("Failed to parse JavaScript: " ++ e1)) := by
    simp [parse, h1, h2]
  rw [hp]
  refine ⟨rfl, ?_, ?_, ?_, ?_, ?_, ?_, ?_⟩ <;>
    simp [extract_functions, extract_variables, extract_classes, extract_imports,
      extract_exports, get_all_identifiers, analyze_complexity, codeTruthy,
      extractFromState, idsFromState, metricsOf]

/-- C10 witness: a concrete failing provider against a state holding a
    cached tree leaves the cache in place. -/
theorem C10_witness :
    (parse (failProvider "e1" "e2") retainedState "x =" false true).1.ast
      = retainedState.ast :=
  (C10_failed_parse_preserves_cache (failProvider "e1" "e2") retainedState "x =" false true
    "e1" "e2" rfl rfl).1

/-- C9: passing the empty string to any extractor-family call is
    indistinguishable from passing no code argument at all — the guard
    `if code:` is false for both, so the empty program is never parsed
    and the cached tree (or the empty result) is used. -/
theorem C9_empty_code_behaves_like_none (P : EsProvider) (st : PState) :
    extract_functions P st (some "") = extract_functions P st none ∧
    extract_variables P st (some "") = extract_variables P st none ∧
    extract_classes P st (some "") = extract_classes P st none ∧
    extract_imports P st (some "") = extract_imports P st none ∧
    extract_exports P st (some "") = extract_exports P st none ∧
    get_all_identifiers P st (some "") = get_all_identifiers P st none ∧
    analyze_complexity P st (some "") = analyze_complexity P st none := by
  refine ⟨rfl, rfl, rfl, rfl, rfl, rfl, ?_⟩
  cases h : st.ast <;> simp [analyze_complexity, codeTruthy, metricsOf, h]

/-- C6 amended: the `lines` metric is the newline count of the code
    argument plus one when a truthy code argument is passed to this call,
    and 0 otherwise — even when a tree and source are retained from an
    earlier parse; it never reads the retained source. -/
theorem C6_lines_amended (P : EsProvider) (st : PState) :
    (∀ (c : String), c ≠ "" → ∀ (st1 : PState) (m : Metrics),
        analyze_complexity P st (some c) = (st1, .ok (some m)) →
          m.lines = newlineCount c + 1) ∧
    (∀ (st1 : PState) (m : Metrics),
        analyze_complexity P st none = (st1, .ok (some m)) → m.lines = 0) := by
  constructor
  · intro c hc st1 m heq
    have htr : codeTruthy (some c) = true := by simp [codeTruthy, hc]
    rw [analyze_complexity, htr] at heq
    simp only [if_true, Option.getD_some] at heq
    cases hp : parse P st c false true with
    | mk st2 r =>
        rw [hp] at heq
        cases r with
        | ok t =>
            simp only [Prod.mk.injEq] at heq
            have hm : metricsOf st2 (some c) = some m := by
              have := heq.2
              exact Except.ok.inj this
            rw [metricsOf] at hm
            cases ha : st2.ast with
            | none => rw [ha] at hm; exact absurd hm (by simp)
            | some t2 =>
                rw [ha] at hm
                have := Option.some.inj hm
                rw [← this]
                simp [htr]
        | error e => simp at heq
  · intro st1 m heq
    have htr : codeTruthy (none : Option String) = false := rfl
    rw [analyze_complexity, htr] at heq
    simp only [Bool.false_eq_true, if_false] at heq
    simp only [Prod.mk.injEq] at heq
    have hm : metricsOf st none = some m := Except.ok.inj heq.2
    rw [metricsOf] at hm
    cases ha : st.ast with
    | none => rw [ha] at hm; exact absurd hm (by simp)
    | some t2 =>
        rw [ha] at hm
        have := Option.some.inj hm
        rw [← this]
        simp [codeTruthy]

/-- C6 witness: with a code argument of two lines the reported lines
    metric is its newline count plus one. -/
theorem C6_witness :
    "x\ny" ≠ "" ∧
    ({ functions := 0, vars := 0, classes := 0, lines := 2, statements := 0,
       loops := 0, conditionals := 0, depth := 0 } : Metrics).lines
      = newlineCount "x\ny" + 1 :=
  ⟨by decide,
   (C6_lines_amended (constProvider tinyProgram []) { ast := none, source_code := none }).1
     "x\ny" (by decide) { ast := some tinyProgram, source_code := some "x\ny" } _ rfl⟩

/-- C6 counterexample: a state retaining the two-line source `a\nb` and a
    cached tree still reports lines = 0 from a zero-argument call, so
    lines is not the retained source's line count and lines = 0 does not
    coincide with "no source retained". -/
theorem C6_counterexample :
    retainedState.source_code = some "a\nb" ∧
    newlineCount "a\nb" + 1 = 2 ∧
    (analyze_complexity (failProvider "x" "y") retainedState none).2
      = .ok (some { functions := 0, vars := 0, classes := 0, lines := 0,
                    statements := 0, loops := 0, conditionals := 0, depth := 0 }) :=
  ⟨rfl, rfl, rfl⟩

theorem innerScan_eq_lookahead (ts : List JSToken) :
    ∀ (k start : Nat),
      innerScan ts (List.range' start k) = requireLookahead ((ts.drop start).take k) := by
  intro k
  induction k with
  | zero => intro start; simp [innerScan, requireLookahead]
  | succ k ih =>
      intro start
      rw [List.range'_succ]
      cases hts : ts[start]? with
      | none =>
          have hlen : ts.length ≤ start := List.getElem?_eq_none_iff.mp hts
          simp only [innerScan, hts]
          rw [ih (start + 1)]
          rw [List.drop_eq_nil_of_le hlen, List.drop_eq_nil_of_le (by omega)]
          simp [requireLookahead]
      | some t =>
          have hlt : start < ts.length := by
            by_contra hcon
            have hnone : ts[start]? = none := by
              rw [List.getElem?_eq_none_iff]; omega
            rw [hnone] at hts
            exact absurd hts (by simp)
          have hget : ts[start] = t := by
            have h0 := List.getElem?_eq_getElem hlt
            rw [hts] at h0
            exact (Option.some.inj h0).symm
          have hdrop : ts.drop start = t :: ts.drop (start + 1) := by
            rw [List.drop_eq_getElem_cons hlt, hget]
          simp only [innerScan, hts]
          rw [hdrop, List.take_succ_cons]
          by_cases hS : (t.type == "String") = true
          · simp [requireLookahead, hS]
          · simp [requireLookahead, hS, ih (start + 1)]

theorem scanRequiresIdx_eq_scanRequires (ts : List JSToken) :
    scanRequiresIdx ts = scanRequires ts := by
  have main : ∀ (n start : Nat), n = ts.length - start →
      (List.range' start n).flatMap (fun i =>
        match ts[i]? with
        | some t =>
            if t.type == "Identifier" && t.value == "require" then
              innerScan ts (List.range' (i + 1) (min (i + 5) ts.length - (i + 1)))
            else []
        | none => []) = scanRequires (ts.drop start) := by
    intro n
    induction n with
    | zero =>
        intro start h
        have hge : ts.length ≤ start := by omega
        simp [List.drop_eq_nil_of_le hge, scanRequires]
    | succ k ih =>
        intro start h
        have hlt : start < ts.length := by omega
        have hget : ts[start]? = some ts[start] := List.getElem?_eq_getElem hlt
        have hdrop : ts.drop start = ts[start] :: ts.drop (start + 1) :=
          List.drop_eq_getElem_cons hlt
        rw [List.range'_succ, List.flatMap_cons, ih (start + 1) (by omega), hdrop]
        rw [scanRequires]
        congr 1
        simp only [hget]
        by_cases hid : (ts[start].type == "Identifier" && ts[start].value == "require") = true
        · rw [if_pos hid, if_pos hid]
          rw [innerScan_eq_lookahead ts (min (start + 5) ts.length - (start + 1)) (start + 1)]
          have htake : List.take ((start + 5) ⊓ ts.length - (start + 1)) (List.drop (start + 1) ts)
              = List.take 4 (List.drop (start + 1) ts) := by
            rw [List.take_eq_take]
            simp only [List.length_drop]
            omega
          rw [htake]
        · rw [if_neg hid, if_neg hid]
  have h0 := main ts.length 0 (by omega)
  rw [scanRequiresIdx, List.range_eq_range']
  simpa using h0

theorem extract_imports_ok (P : EsProvider) (st : PState) (code : Option String)
    (st' : PState) (entries : List (List (String × JVal))) :
    extract_imports P st code = (st', .ok entries) →
      entries = extractFromState "import" st' := by
  intro h
  rw [extract_imports] at h
  cases hct : codeTruthy code with
  | false =>
      rw [hct] at h
      simp only [Bool.false_eq_true, if_false] at h
      simp only [Prod.mk.injEq] at h
      rw [← h.1]
      exact (Except.ok.inj h.2).symm
  | true =>
      rw [hct] at h
      simp only [if_true] at h
      cases hpm : parse_module P st (code.getD "") false with
      | mk st1 r1 =>
          rw [hpm] at h
          cases r1 with
          | ok t =>
              simp only [Prod.mk.injEq] at h
              rw [← h.1]
              exact (Except.ok.inj h.2).symm
          | error e =>
              cases hp2 : parse P st1 (code.getD "") false true with
              | mk st2 r2 =>
                  simp only [hp2] at h
                  cases r2 with
                  | ok t =>
                      simp only [Prod.mk.injEq] at h
                      rw [← h.1]
                      exact (Except.ok.inj h.2).symm
                  | error e2 => simp at h

/-- C7 amended: find_dependencies takes imports from the AST-based import
    extractor (the source value of every ImportDeclaration entry, in
    order, duplicates kept) and requires from the independent token scan:
    at each Identifier token valued `require` it inspects at most the next
    four tokens, takes the first String token, strips the quote characters
    from both ends, and appends the result only when it is non-empty (an
    empty string literal contributes nothing). -/
theorem C7_find_dependencies_amended (P : EsProvider) (st : PState) (code : String) :
    ∀ (st1 : PState) (imports : List JVal) (requires : List String),
      find_dependencies P st code = (st1, .ok (imports, requires)) →
        requires = scanRequires (P.tokenize code)
          ∧ imports = (extractFromState "import" st1).filterMap
              (fun e => getField e "source") := by
  intro st1 imports requires h
  rw [find_dependencies] at h
  cases hei : extract_imports P st (some code) with
  | mk st2 r =>
      rw [hei] at h
      cases r with
      | ok entries =>
          simp only [Prod.mk.injEq] at h
          obtain ⟨hst, hpair⟩ := h
          have hpair2 := Except.ok.inj hpair
          have him : entries.filterMap (fun e => getField e "source") = imports :=
            congrArg Prod.fst hpair2
          have hreq : scanRequiresIdx (P.tokenize code) = requires :=
            congrArg Prod.snd hpair2
          constructor
          · rw [← hreq, scanRequiresIdx_eq_scanRequires]
          · rw [← him]
            have hent := extract_imports_ok P st (some code) st2 entries hei
            rw [hent, hst]
      | error e => simp at h

/-- C7 witness: on the source `const c = require(\x27\x27);` (tokenized by
    the provider to `emptyRequireTokens`, with a tree holding no imports)
    find_dependencies succeeds and both characterizations agree. -/
theorem C7_witness :
    ([] : List String)
        = scanRequires ((constProvider tinyProgram emptyRequireTokens).tokenize
            "const c = require(\x27\x27);") ∧
    ([] : List JVal)
        = (extractFromState "import"
              { ast := some tinyProgram, source_code := some "const c = require(\x27\x27);" }).filterMap
            (fun e => getField e "source") :=
  C7_find_dependencies_amended (constProvider tinyProgram emptyRequireTokens)
    { ast := none, source_code := none } "const c = require(\x27\x27);"
    { ast := some tinyProgram, source_code := some "const c = require(\x27\x27);" } [] [] rfl

/-- C7 counterexample: the token stream of `const c = require(\x27\x27);`
    holds a String token whose unquoted value is empty; the code's scan
    skips it (requires = []), while the scan as the claim words it —
    append the unquoted value of the first String token found — yields
    the empty string as an element. -/
theorem C7_counterexample :
    (find_dependencies (constProvider tinyProgram emptyRequireTokens)
        { ast := none, source_code := none } "const c = require(\x27\x27);").2
      = .ok ([], []) ∧
    scanRequiresClaim emptyRequireTokens = [""] :=
  ⟨rfl, rfl⟩

theorem funcEntries_arrow (fields : List (String × JVal)) :
    ∀ e ∈ funcEntries fields,
      getField e "type" = some (JVal.strV "ArrowFunctionExpression") →
        getField e "name" = some JVal.nullV ∧ getField e "generator" = none := by
  intro e he harrow
  rw [funcEntries] at he
  by_cases h1 : (typeStrOf fields == "FunctionDeclaration"
      || typeStrOf fields == "FunctionExpression") = true
  · rw [if_pos h1] at he
    simp only [List.mem_singleton] at he
    subst he
    have hty : typeStrOf fields = "ArrowFunctionExpression" := by
      simpa [getField] using harrow
    rw [hty] at h1
    simp at h1
  · rw [if_neg h1] at he
    by_cases h2 : (typeStrOf fields == "ArrowFunctionExpression") = true
    · rw [if_pos h2] at he
      simp only [List.mem_singleton] at he
      subst he
      exact ⟨rfl, rfl⟩
    · rw [if_neg h2] at he
      simp at he

theorem trav_arrow_aux (n : Nat) :
    (∀ v : JVal, sizeOf v ≤ n → ∀ e ∈ travNode "function" v,
      getField e "type" = some (JVal.strV "ArrowFunctionExpression") →
        getField e "name" = some JVal.nullV ∧ getField e "generator" = none) ∧
    (∀ l : List (String × JVal), sizeOf l ≤ n → ∀ e ∈ travFields "function" l,
      getField e "type" = some (JVal.strV "ArrowFunctionExpression") →
        getField e "name" = some JVal.nullV ∧ getField e "generator" = none) ∧
    (∀ l : List JVal, sizeOf l ≤ n → ∀ e ∈ travItems "function" l,
      getField e "type" = some (JVal.strV "ArrowFunctionExpression") →
        getField e "name" = some JVal.nullV ∧ getField e "generator" = none) := by
  induction n using Nat.strong_induction_on with
  | _ n ih =>
      refine ⟨?_, ?_, ?_⟩
      · intro v hv e he
        cases v with
        | objV fields =>
            rw [travNode] at he
            rcases List.mem_append.mp he with h | h
            · exact funcEntries_arrow fields e h
            · have hsz : sizeOf fields < n := by
                have hlt : sizeOf fields < sizeOf (JVal.objV fields) := by
                  simp only [JVal.objV.sizeOf_spec]; omega
                omega
              exact (ih (sizeOf fields) hsz).2.1 fields le_rfl e h
        | nullV => simp [travNode] at he
        | boolV b => simp [travNode] at he
        | numV m => simp [travNode] at he
        | strV s => simp [travNode] at he
        | arrV items => simp [travNode] at he
      · intro l hl e he
        cases l with
        | nil => simp [travFields] at he
        | cons kv rest =>
            obtain ⟨k, v⟩ := kv
            have hszrest : sizeOf rest < n := by
              have hlt : sizeOf rest < sizeOf ((k, v) :: rest) := by
                simp only [List.cons.sizeOf_spec]; omega
              omega
            have hszv : sizeOf v < n := by
              have hlt : sizeOf v < sizeOf ((k, v) :: rest) := by
                simp only [List.cons.sizeOf_spec, Prod.mk.sizeOf_spec]; omega
              omega
            cases v with
            | objV f2 =>
                rw [travFields] at he
                rcases List.mem_append.mp he with h | h
                · exact (ih (sizeOf (JVal.objV f2)) hszv).1 (JVal.objV f2) le_rfl e h
                · exact (ih (sizeOf rest) hszrest).2.1 rest le_rfl e h
            | arrV items =>
                rw [travFields] at he
                rcases List.mem_append.mp he with h | h
                · have hsz2 : sizeOf items < n := by
                    have hlt : sizeOf items < sizeOf (JVal.arrV items) := by
                      simp only [JVal.arrV.sizeOf_spec]; omega
                    omega
                  exact (ih (sizeOf items) hsz2).2.2 items le_rfl e h
                · exact (ih (sizeOf rest) hszrest).2.1 rest le_rfl e h
            | nullV =>
                simp only [travFields, List.nil_append] at he
                exact (ih (sizeOf rest) hszrest).2.1 rest le_rfl e he
            | boolV b =>
                simp only [travFields, List.nil_append] at he
                exact (ih (sizeOf rest) hszrest).2.1 rest le_rfl e he
            | numV m =>
                simp only [travFields, List.nil_append] at he
                exact (ih (sizeOf rest) hszrest).2.1 rest le_rfl e he
            | strV str2 =>
                simp only [travFields, List.nil_append] at he
                exact (ih (sizeOf rest) hszrest).2.1 rest le_rfl e he
      · intro l hl e he
        cases l with
        | nil => simp [travItems] at he
        | cons x rest =>
            have hszrest : sizeOf rest < n := by
              have hlt : sizeOf rest < sizeOf (x :: rest) := by
                simp only [List.cons.sizeOf_spec]; omega
              omega
            have hszv : sizeOf x < n := by
              have hlt : sizeOf x < sizeOf (x :: rest) := by
                simp only [List.cons.sizeOf_spec]; omega
              omega
            cases x with
            | objV f2 =>
                rw [travItems] at he
                rcases List.mem_append.mp he with h | h
                · exact (ih (sizeOf (JVal.objV f2)) hszv).1 (JVal.objV f2) le_rfl e h
                · exact (ih (sizeOf rest) hszrest).2.2 rest le_rfl e h
            | nullV =>
                simp only [travItems, List.nil_append] at he
                exact (ih (sizeOf rest) hszrest).2.2 rest le_rfl e he
            | boolV b =>
                simp only [travItems, List.nil_append] at he
                exact (ih (sizeOf rest) hszrest).2.2 rest le_rfl e he
            | numV m =>
                simp only [travItems, List.nil_append] at he
                exact (ih (sizeOf rest) hszrest).2.2 rest le_rfl e he
            | strV str2 =>
                simp only [travItems, List.nil_append] at he
                exact (ih (sizeOf rest) hszrest).2.2 rest le_rfl e he
            | arrV items =>
                simp only [travItems, List.nil_append] at he
                exact (ih (sizeOf rest) hszrest).2.2 rest le_rfl e he

/-- C8 amended: every FunctionInfo entry that extract_functions collects
    for an ArrowFunctionExpression node has kind Arrow and name absent
    (None), but its dict is built without a `generator` key at all — the
    key is omitted for arrows rather than set to False (so it is never
    true, but also never present). -/
theorem C8_arrow_function_info (v : JVal) :
    ∀ e ∈ travNode "function" v,
      getField e "type" = some (JVal.strV "ArrowFunctionExpression") →
        getField e "name" = some JVal.nullV ∧ getField e "generator" = none :=
  fun e he => (trav_arrow_aux (sizeOf v)).1 v le_rfl e he

/-- C8 witness: the single entry extracted from the parse of
    `const subtract = (a,b) => a-b;`. -/
theorem C8_witness :
    getField arrowEntry "name" = some JVal.nullV ∧
    getField arrowEntry "generator" = none :=
  C8_arrow_function_info arrowProgram arrowEntry
    (by
      rw [show travNode "function" arrowProgram = [arrowEntry] from rfl]
      exact List.mem_singleton_self _)
    rfl

/-- C8 counterexample: the arrow entry of `const subtract = (a,b) => a-b;`
    has no `generator` key, so in particular it does not carry
    isGenerator = false as the claim states. -/
theorem C8_counterexample :
    travNode "function" arrowProgram = [arrowEntry] ∧
    getField arrowEntry "type" = some (JVal.strV "ArrowFunctionExpression") ∧
    getField arrowEntry "generator" = none ∧
    getField arrowEntry "generator" ≠ some (JVal.boolV false) := by
  refine ⟨rfl, rfl, rfl, ?_⟩
  rw [show getField arrowEntry "generator" = none from rfl]
  simp

/-- C3 witness: the empty color value (text `color: `) still validates,
    because the stream parses to one (empty-valued) declaration. -/
theorem C3_witness : validate_color [] = true :=
  (C3_validate_color_iff []).mpr (by decide)

/-- C5 witness: `import a from b;` is classified es6 through the amended
    characterization. -/
theorem C5_witness : detect_module_type "import a from b;".toList = "es6" :=
  (C5_detect_module_type_amended "import a from b;".toList).1.mpr
    (Or.inl ⟨(hasSub_iff _ _).mp (by decide), (hasSub_iff _ _).mp (by decide)⟩)

/-- C9 witness: a concrete provider and state give identical results for
    the empty-string and no-argument extractor calls. -/
theorem C9_witness :
    extract_functions (constProvider tinyProgram []) retainedState (some "")
      = extract_functions (constProvider tinyProgram []) retainedState none :=
  (C9_empty_code_behaves_like_none (constProvider tinyProgram []) retainedState).1
